import Mathlib

/-!
Verification companion for the `sg_vllm_contrib_pipeline` scraper.

Shallow Lean embedding of the core of the pipeline:
  * `pipeline/src/utils.py`      — the rate-limit-aware request executor,
  * `pipeline/src/github_scrape.py` — paginated contributor collection and
    normalisation into tables,
  * `pipeline/src/topic_scrape.py`  — topic search, PR collection, human/bot
    classification and the cross-repository aggregator.

Network, clock and filesystem are passed in as explicit oracles; pandas
DataFrames are modelled as a column list plus rows of Python values.
-/

namespace ContribPipeline

/-- Model of a Python runtime value as it appears in the scraped JSON dicts.
`PyVal.none` models Python `None` — which is also what `dict.get` yields for an
absent key, and how a missing cell (NaN) is represented in our table model. -/
inductive PyVal where
  | none
  | str (s : String)
  | int (n : Int)
  | bool (b : Bool)
  deriving DecidableEq, Repr

/-- A Python dict with string keys, bindings in insertion order. -/
abbrev PyDict := List (String × PyVal)

/-- Python `d.get(k)`: the value of the first binding of `k`, `None` when absent. -/
def pget (d : PyDict) (k : String) : PyVal :=
  match d.find? (fun kv => kv.1 == k) with
  | Option.some kv => kv.2
  | Option.none => PyVal.none

/-- Value of a nonempty decimal digit string; `Option.none` on a non-digit. -/
def digitsVal? (cs : List Char) : Option Nat :=
  if cs.isEmpty then Option.none
  else
    cs.foldl
      (fun acc c =>
        match acc with
        | Option.none => Option.none
        | Option.some n => if c.isDigit then Option.some (n * 10 + (c.toNat - 48)) else Option.none)
      (Option.some 0)

/-- Python `int(s)` on an optionally signed decimal string: `Option.some` of its
value, `Option.none` when `int` would raise `ValueError`.  (Python additionally
strips surrounding whitespace and accepts `_` digit grouping; those forms do not
occur in the rate-limit headers this pipeline reads and are not modelled.) -/
def pyInt? (s : String) : Option Int :=
  match s.toList with
  | '-' :: cs => (digitsVal? cs).map (fun n => -(n : Int))
  | '+' :: cs => (digitsVal? cs).map (fun n => (n : Int))
  | cs => (digitsVal? cs).map (fun n => (n : Int))

/-- Python `int(x)` applied to a number: truncation toward zero. -/
def truncQ (q : ℚ) : Int := if 0 ≤ q then ⌊q⌋ else -⌊-q⌋

/-- The `wait` value computed by `request_with_rate_limit` in its 429/403 branch
(utils.py lines 82–97), from the `Retry-After` and `X-RateLimit-Reset` header
values (`Option.none` = header absent), the current epoch second
(`int(time.time())`), the `backoff` parameter and the 1-based attempt number.
The source leaves `wait = None` when a header is absent, empty (falsy) or
unparseable, and finally falls back to `min(60, int(backoff * attempt))`. -/
def rateLimitWait (ra reset : Option String) (now : Int) (backoff : ℚ) (attempt : Nat) : Int :=
  let w1 : Option Int :=
    match ra with
    | Option.some s => if s = "" then Option.none else pyInt? s
    | Option.none => Option.none
  let w2 : Option Int :=
    match w1 with
    | Option.some v => Option.some v
    | Option.none =>
      match reset with
      | Option.some s =>
        if s = "" then Option.none
        else (pyInt? s).map (fun resetTs => max 0 (resetTs - now) + 2)
      | Option.none => Option.none
  match w2 with
  | Option.some v => v
  | Option.none => min 60 (truncQ (backoff * attempt))

/-- What one iteration of the `request_with_rate_limit` loop does with a received
response: return it to the caller, or sleep for the given number of seconds and
retry.  Every branch of the source loop body ends in one of these two. -/
inductive Action where
  | ret
  | sleepRetry (d : ℚ)
  deriving DecidableEq, Repr

/-- One iteration of the `request_with_rate_limit` loop body (utils.py lines
64–115) on a response with the given status and rate-limit headers; `attempt` is
the 1-based attempt counter (already incremented).  When the 429/403 branch
computes `wait ≤ 0` it does not `continue`: control falls through past the 404
test into the `400 <= status < 600` branch, which sleeps `backoff * attempt`. -/
def respAction (status : Nat) (ra reset : Option String) (now : Int) (backoff : ℚ)
    (attempt : Nat) : Action :=
  if status = 200 ∨ status = 201 ∨ status = 204 then Action.ret
  else if status = 202 then Action.sleepRetry (backoff * attempt)
  else if status = 429 ∨ status = 403 then
    let wait := rateLimitWait ra reset now backoff attempt
    if 0 < wait then Action.sleepRetry (wait : ℚ)
    else Action.sleepRetry (backoff * attempt)
  else if status = 404 then Action.ret
  else if 400 ≤ status ∧ status < 600 then Action.sleepRetry (backoff * attempt)
  else Action.ret

/-- What the underlying `session.request` call does on one attempt: raise a
network-level exception, or produce a response with a status and the two
rate-limit headers. -/
inductive Attempt where
  | exc
  | resp (status : Nat) (retryAfter : Option String) (reset : Option String)

/-- Result of `request_with_rate_limit`: a returned response (carrying its
status), the fall-off-the-end `return None`, or a raised error.  The final
`except` clause of the source swallows both the `HTTPError` from
`r.raise_for_status()` and the `NameError` from an unbound `r` and raises
`RuntimeError` in their place, so all raised exits collapse to one case. -/
inductive ReqOutcome where
  | ok (status : Nat)
  | noneRet
  | runtimeError
  deriving DecidableEq, Repr

/-- utils.py lines 117–121: after the `while` loop exhausts, `r.raise_for_status()`
raises exactly when the last bound response status lies in [400, 600) (the
exception is replaced by `RuntimeError`); on any other last status it does not
raise and the function falls off the end, returning `None`; when no response was
ever bound, the `NameError` is likewise replaced by `RuntimeError`. -/
def exhaust (lastStatus : Option Nat) : ReqOutcome :=
  match lastStatus with
  | Option.some s => if 400 ≤ s ∧ s < 600 then ReqOutcome.runtimeError else ReqOutcome.noneRet
  | Option.none => ReqOutcome.runtimeError

/-- The retry loop of `request_with_rate_limit`.  `att k` is what attempt number
`k` (1-based) does; `n` is the attempt counter so far; `fuel` is the number of
loop iterations still allowed (initially `max_retries`); `last` is the status of
the last bound response.  Returns the outcome together with the list of sleep
durations performed, in order. -/
def rwrlGo (att : Nat → Attempt) (now : Int) (backoff : ℚ) :
    Nat → Nat → Option Nat → ReqOutcome × List ℚ
  | _, 0, last => (exhaust last, [])
  | n, fuel + 1, last =>
    let k := n + 1
    match att k with
    | Attempt.exc =>
      let r := rwrlGo att now backoff k fuel last
      (r.1, backoff * k :: r.2)
    | Attempt.resp s ra reset =>
      match respAction s ra reset now backoff k with
      | Action.ret => (ReqOutcome.ok s, [])
      | Action.sleepRetry d =>
        let r := rwrlGo att now backoff k fuel (Option.some s)
        (r.1, d :: r.2)

/-- utils.py `request_with_rate_limit`, with the network and the clock as
oracles: `att k` describes attempt `k`, and `now` models `int(time.time())`
(held constant across the call, which is adequate for the per-branch wait
computations studied here). -/
def request_with_rate_limit (att : Nat → Attempt) (now : Int) (max_retries : Nat)
    (backoff : ℚ) : ReqOutcome × List ℚ :=
  rwrlGo att now backoff 0 max_retries Option.none

/-- Result of `get_json_with_retry`: the parsed body of a 200 response
(identified by the 1-based attempt number that returned it), a raised
`HTTPError` from `r.raise_for_status()` (carrying the status), or the final
`RuntimeError`. -/
inductive JsonOutcome where
  | ok (attempt : Nat)
  | httpError (status : Nat)
  | runtimeError
  deriving DecidableEq, Repr

/-- The loop of utils.py `get_json_with_retry` (lines 27–38) over a status
oracle: attempt `k` (1-based) observes status `statuses k`.  On 200 return; on
202 sleep and retry; on any other status call `r.raise_for_status()`, which
raises exactly for statuses in [400, 600) — other non-200 statuses silently
consume an attempt.  `fuel` is the number of iterations left. -/
def getJsonGo (statuses : Nat → Nat) : Nat → Nat → JsonOutcome
  | _, 0 => JsonOutcome.runtimeError
  | n, fuel + 1 =>
    let k := n + 1
    let s := statuses k
    if s = 200 then JsonOutcome.ok k
    else if s = 202 then getJsonGo statuses k fuel
    else if 400 ≤ s ∧ s < 600 then JsonOutcome.httpError s
    else getJsonGo statuses k fuel

/-- utils.py `get_json_with_retry`: after `max_retries` attempts without a
return, line 39 raises `RuntimeError` unconditionally. -/
def get_json_with_retry (statuses : Nat → Nat) (max_retries : Nat) : JsonOutcome :=
  getJsonGo statuses 0 max_retries

/-! ## Paginated collectors -/

/-- One page response as the collectors see it: the status of the response the
executor returned and the parsed JSON list body (for the search endpoint, its
`items` field). -/
structure Page (α : Type) where
  status : Nat
  items : List α

/-- Result of a paginated collection: the final record list, a raised
`HTTPError` from `r.raise_for_status()` (carrying the status), or fuel
exhaustion (an artifact of bounding the source's unbounded `while` loop). -/
inductive CollectR (α : Type) where
  | done (records : List α)
  | raised (status : Nat)
  | fuelOut
  deriving DecidableEq, Repr

/-- The `while` loop of github_scrape.py `list_contributors` (lines 17–32) over
a page oracle (`pages p` is the executor's response for page `p`).  On a
non-200 status the source calls `r.raise_for_status()`, which raises exactly
for statuses in [400, 600); any other non-200 status falls through and its body
is parsed like a 200 page.  An empty body breaks out of the loop; otherwise the
rows are accumulated and the page counter advances. -/
def listContributorsGo {α : Type} (pages : Nat → Page α) : Nat → List α → Nat → CollectR α
  | _, _, 0 => CollectR.fuelOut
  | p, acc, fuel + 1 =>
    let r := pages p
    if r.status ≠ 200 ∧ 400 ≤ r.status ∧ r.status < 600 then CollectR.raised r.status
    else if r.items.isEmpty then CollectR.done acc
    else listContributorsGo pages (p + 1) (acc ++ r.items) fuel

/-- github_scrape.py `list_contributors`, starting at page 1 with `all_rows = []`. -/
def list_contributors {α : Type} (pages : Nat → Page α) (fuel : Nat) : CollectR α :=
  listContributorsGo pages 1 [] fuel

/-- The `while` loop of topic_scrape.py `list_pull_requests` (lines 60–72): a
non-200 page breaks and the accumulated records are returned; an empty body
breaks likewise. -/
def listPullRequestsGo {α : Type} (pages : Nat → Page α) : Nat → List α → Nat → CollectR α
  | _, _, 0 => CollectR.fuelOut
  | p, acc, fuel + 1 =>
    let r := pages p
    if r.status ≠ 200 then CollectR.done acc
    else if r.items.isEmpty then CollectR.done acc
    else listPullRequestsGo pages (p + 1) (acc ++ r.items) fuel

/-- topic_scrape.py `list_pull_requests`, starting at page 1 with `out = []`. -/
def list_pull_requests {α : Type} (pages : Nat → Page α) (fuel : Nat) : CollectR α :=
  listPullRequestsGo pages 1 [] fuel

/-- The `for page in range(1, max_pages + 1)` loop of topic_scrape.py
`search_repos_for_topic` (lines 22–37): a non-200 page or an empty `items` list
breaks; otherwise the items are accumulated; the loop also ends when
`max_pages` pages have been fetched.  Always returns `all_items`. -/
def searchReposGo {α : Type} (pages : Nat → Page α) : Nat → Nat → List α → List α
  | _, 0, acc => acc
  | p, rem + 1, acc =>
    let r := pages p
    if r.status ≠ 200 then acc
    else if r.items.isEmpty then acc
    else searchReposGo pages (p + 1) rem (acc ++ r.items)

/-- topic_scrape.py `search_repos_for_topic` over a page oracle. -/
def searchReposPages {α : Type} (pages : Nat → Page α) (max_pages : Nat) : List α :=
  searchReposGo pages 1 max_pages []

/-! ## Human/bot classification -/

/-- `d.get(k, dflt)`. -/
def pgetD (d : PyDict) (k : String) (dflt : PyVal) : PyVal :=
  match d.find? (fun kv => kv.1 == k) with
  | Option.some kv => kv.2
  | Option.none => dflt

/-- Python `s.lower()`, character-wise (ASCII case mapping — the only case the
bot-suffix patterns involve). -/
def lowerStr (s : String) : String := String.mk (s.data.map Char.toLower)

/-- Python `s.endswith(p)`: the last `len(p)` characters of `s` equal `p`
(false when `p` is longer than `s`, since then the lengths differ). -/
def strEndsWith (s p : String) : Bool :=
  List.drop (s.data.length - p.data.length) s.data == p.data

/-- topic_scrape.py `is_human_user` (lines 76–87): an empty (falsy) dict is not
human; the declared `type` must equal `"User"`; and the lowercased login must
not end with `"[bot]"` or `"bot"`.  `user_obj.get("login", "")` defaults to the
empty string for an absent key; a present non-string login would make the
source's `.lower()` raise `AttributeError` and lies outside the modelled domain
(theorems below restrict to actors whose login, when present, is a string). -/
def is_human_user (user_obj : PyDict) : Bool :=
  if user_obj.isEmpty then false
  else if pget user_obj "type" ≠ PyVal.str "User" then false
  else
    let login : String :=
      match pgetD user_obj "login" (PyVal.str "") with
      | PyVal.str s => s
      | _ => ""
    if strEndsWith (lowerStr login) "[bot]" || strEndsWith (lowerStr login) "bot" then false
    else true

/-! ## Table model and normalizers -/

/-- A pandas DataFrame, modelled as an ordered column list plus rows of Python
values (one value per column, in column order).  `pd.DataFrame()` is `⟨[], []⟩`;
a missing cell (NaN) is `PyVal.none`. -/
structure DF where
  cols : List String
  rows : List (List PyVal)
  deriving DecidableEq, Repr

/-- The five fixed columns of github_scrape.py `to_dataframe_contributors`. -/
def contribCols : List String := ["login", "type", "contributions", "id", "html_url"]

/-- One flattened record of `to_dataframe_contributors` (lines 65–76): the
`id` field is kept only when `isinstance(r.get("id"), int)` — which also holds
for Python bools; a `None` login is replaced by `r.get("name")` afterwards. -/
def contribRecord (r : PyDict) : List PyVal :=
  let login :=
    match pget r "login" with
    | PyVal.none => pget r "name"
    | v => v
  let idv :=
    match pget r "id" with
    | PyVal.int n => PyVal.int n
    | PyVal.bool b => PyVal.bool b
    | _ => PyVal.none
  [login, pget r "type", pget r "contributions", idv, pget r "html_url"]

/-- github_scrape.py `to_dataframe_contributors`: the empty input returns the
empty `pd.DataFrame()` (zero columns); otherwise one flattened record per input
dict over the five fixed columns. -/
def to_dataframe_contributors (rows : List PyDict) : DF :=
  if rows.isEmpty then ⟨[], []⟩
  else ⟨contribCols, rows.map contribRecord⟩

/-- The 14-field allow-list of github_scrape.py `to_dataframe_users` (line 82). -/
def userKeep : List String :=
  ["login", "name", "company", "blog", "location", "email", "hireable", "bio",
   "twitter_username", "public_repos", "followers", "following", "created_at", "updated_at"]

/-- github_scrape.py `to_dataframe_users`: the empty input returns the empty
`pd.DataFrame()`; otherwise each row projects the allow-listed fields, with
absent fields becoming `None`. -/
def to_dataframe_users (rows : List PyDict) : DF :=
  if rows.isEmpty then ⟨[], []⟩
  else ⟨userKeep, rows.map (fun r => userKeep.map (fun k => pget r k))⟩

/-! ## pandas operations used by the aggregator -/

/-- Append the members of `cs` to `acc`, skipping those already present:
first-occurrence column union, as `pd.concat(..., sort=False)` performs it. -/
def dedupAppend (acc cs : List String) : List String :=
  cs.foldl (fun a c => if a.contains c then a else a ++ [c]) acc

/-- Column union of several tables, in first-occurrence order. -/
def unionCols (ls : List (List String)) : List String := ls.foldl dedupAppend []

/-- The value in `row` (a row of `df`) at column `c`: the entry at the index of
`c` in `df.cols`, NaN (`PyVal.none`) when `c` is not a column of `df`. -/
def cellAt (df : DF) (row : List PyVal) (c : String) : PyVal :=
  match df.cols.findIdx? (fun x => x == c) with
  | Option.some i => row.getD i PyVal.none
  | Option.none => PyVal.none

/-- `pd.concat(dfs, ignore_index=True, sort=False)`: columns are the
first-occurrence union; each input row is reindexed to the union columns with
NaN fill. -/
def pdConcat (dfs : List DF) : DF :=
  let cols := unionCols (dfs.map DF.cols)
  ⟨cols, dfs.flatMap (fun df => df.rows.map (fun row => cols.map (cellAt df row)))⟩

/-- `df[c] = v` with a scalar `v`: overwrite column `c` when present, else
append it as a new last column, giving every row the value `v`. -/
def dfAssign (df : DF) (c : String) (v : PyVal) : DF :=
  if df.cols.contains c then
    DF.mk df.cols (df.rows.map (fun row => row.set (df.cols.findIdx (fun x => x == c)) v))
  else DF.mk (df.cols ++ [c]) (df.rows.map (fun row => row ++ [v]))

/-! ## Cross-repository aggregator -/

/-- A repository-descriptor entry as the aggregator reads it back from
`repos_by_topic.json` — the dict written by `find_repos_by_topics`, whose
`owner` key is always present (possibly `None`), read by the aggregator with
bracket access. -/
structure RInfo where
  name : PyVal
  owner : PyVal
  topics : List String
  matched_topics : List String
  deriving DecidableEq, Repr

/-- One immediate subdirectory of the parent directory, with the parse outcome
of its candidate CSV files: `Option.none` = file absent;
`Option.some Option.none` = present but `pd.read_csv` raises;
`Option.some (Option.some df)` = parsed table. -/
structure SubDir where
  name : String
  contributors : Option (Option DF)
  users : Option (Option DF)
  deriving DecidableEq, Repr

/-- topic_scrape.py lines 343–347: prefer `contributors.csv`, fall back to
`users.csv`, skip the directory when neither file exists. -/
def chooseCSV (d : SubDir) : Option (Option DF) :=
  match d.contributors with
  | Option.some p => Option.some p
  | Option.none => d.users

/-- The six metadata columns the aggregator assigns (lines 367–372). -/
def metaCols : List String :=
  ["repo_dir", "repo_name", "full_name", "owner", "topics", "matched_topics"]

/-- Lines 356–360: first entry of the repos map (dict iteration order) whose
`name` equals the subdirectory name; first match wins. -/
def findFullMatch (rmap : List (String × RInfo)) (repoName : String) : Option (String × RInfo) :=
  rmap.find? (fun kv => kv.2.name == PyVal.str repoName)

/-- Lines 362–372: the metadata values derived from the match and the six
column assignments performed on a matched table. -/
def augmentDF (parentPath : String) (rmap : List (String × RInfo)) (dirName : String)
    (df : DF) : DF :=
  let fm := findFullMatch rmap dirName
  let owner := match fm with
    | Option.some kv => kv.2.owner
    | Option.none => PyVal.none
  let fullName := match fm with
    | Option.some kv => PyVal.str kv.1
    | Option.none => PyVal.none
  let topics := match fm with
    | Option.some kv => String.intercalate "," kv.2.topics
    | Option.none => ""
  let matched := match fm with
    | Option.some kv => String.intercalate "," kv.2.matched_topics
    | Option.none => ""
  dfAssign (dfAssign (dfAssign (dfAssign (dfAssign (dfAssign df
    "repo_dir" (PyVal.str (parentPath ++ "/" ++ dirName)))
    "repo_name" (PyVal.str dirName))
    "full_name" fullName)
    "owner" owner)
    "topics" (PyVal.str topics))
    "matched_topics" (PyVal.str matched)

/-- The `rows` list built by the aggregator loop (lines 339–375) over the
sorted subdirectory listing: a directory with no candidate CSV, or whose CSV is
unreadable, is skipped; otherwise the parsed table, with the six metadata
columns assigned, is appended. -/
def aggRows (parentPath : String) (rmap : List (String × RInfo)) : List SubDir → List DF
  | [] => []
  | d :: ds =>
    match chooseCSV d with
    | Option.none => aggRows parentPath rmap ds
    | Option.some Option.none => aggRows parentPath rmap ds
    | Option.some (Option.some df) =>
      augmentDF parentPath rmap d.name df :: aggRows parentPath rmap ds

/-- The source tables behind `aggRows`: the same scan, collecting each matched
table as parsed, before any metadata column is added. -/
def matchedDFs : List SubDir → List DF
  | [] => []
  | d :: ds =>
    match chooseCSV d with
    | Option.none => matchedDFs ds
    | Option.some Option.none => matchedDFs ds
    | Option.some (Option.some df) => df :: matchedDFs ds

/-- topic_scrape.py `aggregate_contributors_master` (lines 311–385) over a
filesystem oracle: `parent = Option.none` models a non-existent parent
directory (`prs_parent.exists()` false); otherwise the sorted list of its
immediate subdirectories.  Writing the output CSV is I/O; the value of interest
is the master table, or the raised `RuntimeError` message when `rows` is empty. -/
def aggregate_contributors_master (parentPath : String)
    (parent : Option (List SubDir)) (rmap : List (String × RInfo)) : Except String DF :=
  let rows := match parent with
    | Option.none => []
    | Option.some ds => aggRows parentPath rmap ds
  if rows.isEmpty then Except.error ("No contributor/user CSVs found under " ++ parentPath)
  else Except.ok (pdConcat rows)

/-! ## Topic search and repo-map construction -/

/-- The fields of one search-result item consulted by `find_repos_by_topics`
(topic_scrape.py lines 101–116); each models the corresponding `item.get(...)`
value, with `owner_login` modelling `item.get("owner", {}).get("login")` and
`full_name = Option.none` modelling an absent or `None` full name. -/
structure SearchItem where
  full_name : Option String
  owner_login : PyVal
  name : PyVal
  html_url : PyVal
  description : PyVal
  stargazers_count : PyVal
  forks_count : PyVal
  deriving DecidableEq, Repr

/-- One entry of the `repos` dict built by `find_repos_by_topics`; the Python
`set` `matched_topics` is modelled as a duplicate-free list in insertion
order. -/
structure RepoEntry where
  full_name : String
  owner : PyVal
  name : PyVal
  html_url : PyVal
  description : PyVal
  stargazers_count : PyVal
  forks_count : PyVal
  topics : List String
  matched_topics : List String
  deriving DecidableEq, Repr

/-- `repos[full]["matched_topics"].add(topic)` on the modelled set. -/
def addMatched (e : RepoEntry) (t : String) : RepoEntry :=
  if e.matched_topics.contains t then e
  else { e with matched_topics := e.matched_topics ++ [t] }

/-- The fresh entry created at lines 106–116 (with an empty matched set). -/
def mkEntry (full : String) (it : SearchItem) : RepoEntry :=
  { full_name := full, owner := it.owner_login, name := it.name,
    html_url := it.html_url, description := it.description,
    stargazers_count := it.stargazers_count, forks_count := it.forks_count,
    topics := [], matched_topics := [] }

/-- Processing of one search item inside the topic loop (lines 101–117): skip a
falsy (`None` or empty) `full_name`; create the entry on first sight; then add
the current topic to its matched set.  The dict is an insertion-ordered
association list. -/
def stepItem (repos : List (String × RepoEntry)) (t : String) (it : SearchItem) :
    List (String × RepoEntry) :=
  match it.full_name with
  | Option.none => repos
  | Option.some full =>
    if full = "" then repos
    else
      let repos1 :=
        if (repos.find? (fun kv => kv.1 == full)).isSome then repos
        else repos ++ [(full, mkEntry full it)]
      repos1.map (fun kv => if kv.1 == full then (kv.1, addMatched kv.2 t) else kv)

/-- The two nested loops of `find_repos_by_topics` (lines 98–117), with the
per-topic search results supplied by the oracle `search`. -/
def buildRepos (search : String → List SearchItem) (topics : List String) :
    List (String × RepoEntry) :=
  topics.foldl (fun repos t => (search t).foldl (fun r it => stepItem r t it) repos) []

/-- topic_scrape.py `find_repos_by_topics` over oracles: `search t` models
`search_repos_for_topic(t, ...)`, and `getTopics owner name` models
`get_repo_topics(owner, repo, ...)`.  The second loop (lines 119–126) fills the
`topics` field and replaces the matched set by its sorted list; the
`serializable` copy that is returned has the same entries. -/
def find_repos_by_topics (topics : List String) (search : String → List SearchItem)
    (getTopics : PyVal → PyVal → List String) : List (String × RepoEntry) :=
  (buildRepos search topics).map (fun kv =>
    (kv.1, { kv.2 with
      topics := getTopics kv.2.owner kv.2.name,
      matched_topics := kv.2.matched_topics.insertionSort (fun a b => a ≤ b) }))

/-! ## Specification-side definitions

Definitions in this section are written from the specification's (or a
claim's) words, to be compared with the code-side definitions above. -/

/-- Parse of a rate-limit header value: `Option.some` exactly when the header
is present, non-empty and parseable as an integer.  (The empty string is not
parseable, so this is also precisely the source's `if ra:`-guarded
`try: int(ra)`.) -/
def headerInt? (h : Option String) : Option Int :=
  match h with
  | Option.some s => if s = "" then Option.none else pyInt? s
  | Option.none => Option.none

/-- The wait claim C3 predicts for a 429/403 response, as stated: the parsed
`Retry-After` value; else the reset epoch minus now, floored at 0, plus a
2-second margin; else `min 60 (backoff * attempt)` — with no truncation and no
positivity side-condition. -/
def claimedRateWait (ra reset : Option String) (now : Int) (backoff : ℚ) (attempt : Nat) : ℚ :=
  match headerInt? ra with
  | Option.some v => (v : ℚ)
  | Option.none =>
    match headerInt? reset with
    | Option.some r => ((max 0 (r - now) + 2 : Int) : ℚ)
    | Option.none => min 60 (backoff * attempt)

/-- The wait actually performed after a 429/403 response (amended C3): the
computed `wait` when it is positive; otherwise — because the 429/403 branch
only sleeps under `if wait > 0` and control falls through into the generic
4xx/5xx branch — `backoff * attempt`.  The header-free fallback inside `wait`
truncates `backoff * attempt` to an integer capped at 60. -/
def amendedRateWait (ra reset : Option String) (now : Int) (backoff : ℚ) (attempt : Nat) : ℚ :=
  let w : Int :=
    match headerInt? ra with
    | Option.some v => v
    | Option.none =>
      match headerInt? reset with
      | Option.some r => max 0 (r - now) + 2
      | Option.none => min 60 (truncQ (backoff * attempt))
  if 0 < w then (w : ℚ) else backoff * attempt

/-- Case-insensitive suffix test, as the human/bot claim reads it. -/
def endsWithCI (s p : String) : Bool := strEndsWith (lowerStr s) (lowerStr p)

/-- Claim C5's classification for an actor with the given `type` field value
and login string: human iff the type is the human-user marker `"User"` and the
login does not end, case-insensitively, with `"[bot]"` or `"bot"`. -/
def humanSpec (ty : PyVal) (login : String) : Bool :=
  ty == PyVal.str "User" && !(endsWithCI login "[bot]" || endsWithCI login "bot")

/-- Concatenation of the bodies of `n` consecutive pages starting at page `a`. -/
def pagesConcat {α : Type} (pages : Nat → Page α) (a : Nat) : Nat → List α
  | 0 => []
  | n + 1 => (pages a).items ++ pagesConcat pages (a + 1) n

/-- Invariant of the repo-map construction, relating the association list built
so far to the list of (topic, item) pairs already processed: keys are unique,
a key is present iff some processed item carried it as a truthy `full_name`,
and each entry records, without duplicates, exactly the topics under which a
processed item carried its key. -/
def ReposInv (ps : List (String × SearchItem)) (repos : List (String × RepoEntry)) : Prop :=
  (repos.map Prod.fst).Nodup ∧
  (∀ full : String, full ∈ repos.map Prod.fst ↔
    full ≠ "" ∧ ∃ p ∈ ps, p.2.full_name = Option.some full) ∧
  (∀ kv ∈ repos, kv.2.full_name = kv.1 ∧ kv.2.matched_topics.Nodup ∧
    (∀ s : String, s ∈ kv.2.matched_topics ↔
      ∃ it, (s, it) ∈ ps ∧ it.full_name = Option.some kv.1))

/-! ## Theorems -/

/-- C10: on the empty input list both `to_dataframe_contributors` and
`to_dataframe_users` return the empty table — zero rows and zero columns; the
fixed output schemas are not materialized as column headers. -/
theorem c10_empty_input_empty_table :
    to_dataframe_contributors [] = DF.mk [] [] ∧
    to_dataframe_users [] = DF.mk [] [] ∧
    (to_dataframe_contributors []).cols.length = 0 ∧
    (to_dataframe_contributors []).rows.length = 0 ∧
    (to_dataframe_users []).cols.length = 0 ∧
    (to_dataframe_users []).rows.length = 0 :=
  ⟨rfl, rfl, rfl, rfl, rfl, rfl⟩

/-- C6: contributor normalization keeps a present non-null `login` and falls
back to the `name` field when `login` is absent or null (the first entry of a
flattened record is its login); in particular the input
`{"login": null, "name": "Jane Doe", "contributions": 5}` normalizes to a row
whose login is `"Jane Doe"`. -/
theorem c6_contributor_login_fallback :
    (∀ r : PyDict,
      (contribRecord r).head? =
        Option.some (if pget r "login" = PyVal.none then pget r "name" else pget r "login")) ∧
    to_dataframe_contributors
        [[("login", PyVal.none), ("name", PyVal.str "Jane Doe"), ("contributions", PyVal.int 5)]] =
      DF.mk contribCols
        [[PyVal.str "Jane Doe", PyVal.none, PyVal.int 5, PyVal.none, PyVal.none]] := by
  constructor
  · intro r
    unfold contribRecord
    cases h : pget r "login" <;> simp [h]
  · rfl

/-- C1 (failing input): with the default budget `max_retries = 6` and
`backoff = 1.5`, when every attempt observes status 202 the exhausted
`request_with_rate_limit` does not raise: `r.raise_for_status()` passes on the
2xx status 202, so the final `try` block completes and the function falls off
the end, returning `None` — while `get_json_with_retry` on the same statuses
does raise its `RuntimeError` as the spec demands. -/
theorem c1_exhausted_202_returns_none :
    (request_with_rate_limit (fun _ => Attempt.resp 202 Option.none Option.none) 0 6 (3/2)).1 =
      ReqOutcome.noneRet ∧
    get_json_with_retry (fun _ => 202) 6 = JsonOutcome.runtimeError := by
  constructor
  · rfl
  · rfl

/-- Helper: a directory list none of whose members carries a candidate CSV file
contributes no rows to the aggregation. -/
theorem aggRows_nil_of_no_csv (parentPath : String) (rmap : List (String × RInfo)) :
    ∀ ds : List SubDir,
      (∀ d ∈ ds, d.contributors = Option.none ∧ d.users = Option.none) →
      aggRows parentPath rmap ds = [] := by
  intro ds
  induction ds with
  | nil => intro _; rfl
  | cons d rest ih =>
    intro h
    have hd := h d (List.mem_cons_self d rest)
    have hrest := ih (fun x hx => h x (List.mem_cons_of_mem d hx))
    unfold aggRows chooseCSV
    rw [hd.1, hd.2, hrest]

/-- C7: `aggregate_contributors_master` raises (`RuntimeError`, the spec's
`AggregationInputMissing`) whenever zero source tables are found under the
parent directory — in particular when the parent is absent, empty, or contains
only subdirectories lacking both a contributors table and a users table. -/
theorem c7_aggregator_raises_on_zero_tables (parentPath : String)
    (parent : Option (List SubDir)) (rmap : List (String × RInfo))
    (h : parent = Option.none ∨ parent = Option.some [] ∨
      ∃ ds, parent = Option.some ds ∧
        ∀ d ∈ ds, d.contributors = Option.none ∧ d.users = Option.none) :
    aggregate_contributors_master parentPath parent rmap =
      Except.error ("No contributor/user CSVs found under " ++ parentPath) := by
  rcases h with h | h | ⟨ds, hds, hall⟩
  · rw [h]; rfl
  · rw [h]; rfl
  · rw [hds]
    have h0 : aggRows parentPath rmap ds = [] := aggRows_nil_of_no_csv parentPath rmap ds hall
    show (if (aggRows parentPath rmap ds).isEmpty = true then
        Except.error ("No contributor/user CSVs found under " ++ parentPath)
      else Except.ok (pdConcat (aggRows parentPath rmap ds))) =
      Except.error ("No contributor/user CSVs found under " ++ parentPath)
    rw [h0]
    rfl

/-- Witness for C7 at a concrete input: a parent directory holding one
subdirectory that has neither CSV file. -/
theorem c7_aggregator_raises_on_zero_tables_witness :
    aggregate_contributors_master "/data/prs"
        (Option.some [SubDir.mk "repo1" Option.none Option.none]) [] =
      Except.error ("No contributor/user CSVs found under " ++ "/data/prs") :=
  c7_aggregator_raises_on_zero_tables "/data/prs"
    (Option.some [SubDir.mk "repo1" Option.none Option.none]) []
    (Or.inr (Or.inr ⟨[SubDir.mk "repo1" Option.none Option.none], rfl, by decide⟩))

/-- C5: `is_human_user` returns `true` iff the actor's declared `type` equals
the human-user marker `"User"` and its login does not end, case-insensitively,
with `"[bot]"` or with `"bot"` — stated for actors whose login binding, when
present, is a string (the source's `.lower()` presumes that); together with
the three examples from the specification. -/
theorem c5_is_human_user_iff :
    (∀ (u : PyDict) (s : String), pgetD u "login" (PyVal.str "") = PyVal.str s →
      is_human_user u = humanSpec (pget u "type") s) ∧
    is_human_user [("type", PyVal.str "Bot"), ("login", PyVal.str "dependabot[bot]")] = false ∧
    is_human_user [("type", PyVal.str "User"), ("login", PyVal.str "alice")] = true ∧
    is_human_user [("type", PyVal.str "User"), ("login", PyVal.str "renovate-bot")] = false := by
  refine ⟨?_, by decide, by decide, by decide⟩
  intro u s hs
  by_cases he : u.isEmpty = true
  · have hu : u = [] := List.isEmpty_iff.mp he
    subst hu
    have hs0 : s = "" := by
      have : pgetD ([] : PyDict) "login" (PyVal.str "") = PyVal.str "" := rfl
      rw [this] at hs
      exact ((PyVal.str.injEq "" s).mp hs).symm
    subst hs0
    decide
  · by_cases hty : pget u "type" = PyVal.str "User"
    · have hb : (pget u "type" == PyVal.str "User") = true := by
        rw [hty]; exact beq_self_eq_true (PyVal.str "User")
      have hpat1 : lowerStr "[bot]" = "[bot]" := by decide
      have hpat2 : lowerStr "bot" = "bot" := by decide
      unfold is_human_user humanSpec endsWithCI
      rw [if_neg he, if_neg (fun hcon => hcon hty), hs, hb, hpat1, hpat2]
      cases hcond : (strEndsWith (lowerStr s) "[bot]" || strEndsWith (lowerStr s) "bot") <;>
        simp [hcond]
    · have hb : (pget u "type" == PyVal.str "User") = false := by
        cases hc : pget u "type" == PyVal.str "User"
        · rfl
        · exact absurd (eq_of_beq hc) hty
      unfold is_human_user humanSpec
      rw [if_neg he, if_pos hty, hb]
      simp

/-- Witness for C5 at a concrete actor. -/
theorem c5_is_human_user_iff_witness :
    is_human_user [("type", PyVal.str "User"), ("login", PyVal.str "alice")] =
      humanSpec (pget [("type", PyVal.str "User"), ("login", PyVal.str "alice")] "type")
        "alice" :=
  c5_is_human_user_iff.1 [("type", PyVal.str "User"), ("login", PyVal.str "alice")] "alice"
    (by decide)

/-- Helper: the `wait` value of the 429/403 branch, rephrased through
`headerInt?`: `Retry-After` when present/non-empty/parseable, else the reset
computation, else the truncated capped backoff. -/
theorem rateLimitWait_eq_headerInt (ra reset : Option String) (now : Int) (backoff : ℚ)
    (attempt : Nat) :
    rateLimitWait ra reset now backoff attempt =
      (match headerInt? ra with
       | Option.some v => v
       | Option.none =>
         match headerInt? reset with
         | Option.some r => max 0 (r - now) + 2
         | Option.none => min 60 (truncQ (backoff * attempt))) := by
  unfold rateLimitWait headerInt?
  cases ra with
  | none =>
    cases reset with
    | none => rfl
    | some s =>
      by_cases hs : s = ""
      · simp [hs]
      · simp only [hs, if_false, reduceIte]
        cases pyInt? s <;> simp
  | some s =>
    by_cases hs : s = ""
    · simp only [hs, reduceIte]
      cases reset with
      | none => rfl
      | some s2 =>
        by_cases hs2 : s2 = ""
        · simp [hs2]
        · simp only [hs2, reduceIte]
          cases pyInt? s2 <;> simp
    · simp only [hs, reduceIte]
      cases hp : pyInt? s with
      | some v => simp
      | none =>
        simp only [Option.map]
        cases reset with
        | none => rfl
        | some s2 =>
          by_cases hs2 : s2 = ""
          · simp [hs2]
          · simp only [hs2, reduceIte]
            cases pyInt? s2 <;> simp

/-- C3 (amended): on a 429 or 403 response the executor sleeps and retries,
and the slept duration is `amendedRateWait`: the parsed `Retry-After` value
when present, non-empty, parseable and positive; else the reset epoch minus
now floored at zero plus a 2-second margin; else `min 60 (int (backoff *
attempt))`; and whenever that computed wait is not positive, the duration
`backoff * attempt` of the generic-error branch the code falls through to.  In
particular, on `Retry-After: 3` the executor sleeps exactly 3 ≥ 3 seconds
before the next attempt. -/
theorem c3_rate_limit_wait_amended (status : Nat) (ra reset : Option String) (now : Int)
    (backoff : ℚ) (attempt : Nat) (hs : status = 429 ∨ status = 403) :
    respAction status ra reset now backoff attempt =
      Action.sleepRetry (amendedRateWait ra reset now backoff attempt) ∧
    respAction status (Option.some "3") reset now backoff attempt = Action.sleepRetry 3 ∧
    ((3 : ℚ) ≥ 3) := by
  have hstep : ∀ ra2 reset2, respAction status ra2 reset2 now backoff attempt =
      Action.sleepRetry (amendedRateWait ra2 reset2 now backoff attempt) := by
    intro ra2 reset2
    have h1 : ¬(status = 200 ∨ status = 201 ∨ status = 204) := by
      rcases hs with h | h <;> subst h <;> simp
    have h2 : status ≠ 202 := by rcases hs with h | h <;> subst h <;> simp
    have h3 : (status = 429 ∨ status = 403) := hs
    unfold respAction amendedRateWait
    rw [if_neg h1, if_neg h2, if_pos h3]
    rw [rateLimitWait_eq_headerInt]
    by_cases hw : 0 < (match headerInt? ra2 with
       | Option.some v => v
       | Option.none =>
         match headerInt? reset2 with
         | Option.some r => max 0 (r - now) + 2
         | Option.none => min 60 (truncQ (backoff * attempt)))
    · rw [if_pos hw, if_pos hw]
    · rw [if_neg hw, if_neg hw]
  refine ⟨hstep ra reset, ?_, le_refl 3⟩
  rw [hstep (Option.some "3") reset]
  have hp : headerInt? (Option.some "3") = Option.some 3 := by decide
  have h3 : amendedRateWait (Option.some "3") reset now backoff attempt = 3 := by
    unfold amendedRateWait
    rw [hp]
    norm_num
  rw [h3]

/-- Witness for C3 (amended) at a concrete 429 response. -/
theorem c3_rate_limit_wait_amended_witness :
    respAction 429 (Option.some "7") Option.none 100 (3/2) 1 =
      Action.sleepRetry (amendedRateWait (Option.some "7") Option.none 100 (3/2) 1) ∧
    respAction 429 (Option.some "3") Option.none 100 (3/2) 1 = Action.sleepRetry 3 ∧
    ((3 : ℚ) ≥ 3) :=
  c3_rate_limit_wait_amended 429 (Option.some "7") Option.none 100 (3/2) 1 (Or.inl rfl)

/-- C3 counterexample: on a 429 response carrying `Retry-After: 0` — present
and parseable, value 0 — at attempt 1 with the default `backoff = 1.5`, the
claim predicts a wait of 0 seconds, but the source's 429/403 branch sleeps
only under `wait > 0`; control falls through into the generic-error branch,
which sleeps `backoff * attempt = 1.5` seconds. -/
theorem c3_retry_after_zero_counterexample :
    claimedRateWait (Option.some "0") Option.none 100 (3/2) 1 = 0 ∧
    respAction 429 (Option.some "0") Option.none 100 (3/2) 1 =
      Action.sleepRetry (3/2) ∧
    ((3 : ℚ)/2 ≠ 0) := by
  have hp : headerInt? (Option.some "0") = Option.some 0 := by decide
  refine ⟨?_, ?_, by norm_num⟩
  · unfold claimedRateWait
    rw [hp]
    norm_num
  · unfold respAction
    rw [rateLimitWait_eq_headerInt, hp]
    norm_num

/-- Helper: `pagesConcat` is the flattening of the bodies of pages
`a, a+1, …, a+n−1`. -/
theorem pagesConcat_eq_flatten {α : Type} (pages : Nat → Page α) :
    ∀ (n a : Nat),
      pagesConcat pages a n = ((List.range' a n).map (fun p => (pages p).items)).flatten := by
  intro n
  induction n with
  | zero => intro a; rfl
  | succ m ih =>
    intro a
    rw [List.range'_succ, List.map_cons, List.flatten_cons, ← ih (a + 1)]
    rfl

/-- Helper: the length of `pagesConcat` is the sum of the page sizes. -/
theorem pagesConcat_length {α : Type} (pages : Nat → Page α) (n a : Nat) :
    (pagesConcat pages a n).length =
      ((List.range' a n).map (fun p => (pages p).items.length)).sum := by
  rw [pagesConcat_eq_flatten, List.length_flatten, List.map_map]
  rfl

/-- Helper: a run of the `list_pull_requests` loop over `n` full pages ending
in a page that breaks (non-200 status or empty body) returns the accumulated
records. -/
theorem listPRGo_run {α : Type} (pages : Nat → Page α) :
    ∀ (n p : Nat) (acc : List α) (fuel : Nat),
      (∀ j, j < n → (pages (p + j)).status = 200 ∧ (pages (p + j)).items ≠ []) →
      ((pages (p + n)).status ≠ 200 ∨ (pages (p + n)).items = []) →
      n < fuel →
      listPullRequestsGo pages p acc fuel = CollectR.done (acc ++ pagesConcat pages p n) := by
  intro n
  induction n with
  | zero =>
    intro p acc fuel _ hstop hfuel
    cases fuel with
    | zero => omega
    | succ f =>
      simp only [Nat.add_zero] at hstop
      simp only [listPullRequestsGo]
      show (if (pages p).status ≠ 200 then CollectR.done acc
        else if (pages p).items.isEmpty then CollectR.done acc
        else listPullRequestsGo pages (p + 1) (acc ++ (pages p).items) f) =
        CollectR.done (acc ++ pagesConcat pages p 0)
      rcases hstop with hbad | hempty
      · rw [if_pos hbad]
        show CollectR.done acc = CollectR.done (acc ++ [])
        rw [List.append_nil]
      · by_cases hbad : (pages p).status ≠ 200
        · rw [if_pos hbad]
          show CollectR.done acc = CollectR.done (acc ++ [])
          rw [List.append_nil]
        · rw [if_neg hbad, if_pos (List.isEmpty_iff.mpr hempty)]
          show CollectR.done acc = CollectR.done (acc ++ [])
          rw [List.append_nil]
  | succ m ih =>
    intro p acc fuel hprev hstop hfuel
    cases fuel with
    | zero => omega
    | succ f =>
      have h0 := hprev 0 (Nat.succ_pos m)
      simp only [Nat.add_zero] at h0
      simp only [listPullRequestsGo]
      show (if (pages p).status ≠ 200 then CollectR.done acc
        else if (pages p).items.isEmpty then CollectR.done acc
        else listPullRequestsGo pages (p + 1) (acc ++ (pages p).items) f) =
        CollectR.done (acc ++ pagesConcat pages p (m + 1))
      rw [if_neg (fun hcon => hcon h0.1),
        if_neg (fun hcon => h0.2 (List.isEmpty_iff.mp hcon))]
      rw [ih (p + 1) (acc ++ (pages p).items) f
        (fun j hj => by
          have hsh : p + 1 + j = p + (j + 1) := by omega
          rw [hsh]
          exact hprev (j + 1) (by omega))
        (by
          have hsh : p + 1 + m = p + (m + 1) := by omega
          rw [hsh]
          exact hstop)
        (by omega)]
      rw [List.append_assoc]
      rfl

/-- Helper: a run of the `list_contributors` loop over `n` full pages ending in
an empty 200 page returns the accumulated records. -/
theorem listContribGo_run {α : Type} (pages : Nat → Page α) :
    ∀ (n p : Nat) (acc : List α) (fuel : Nat),
      (∀ j, j < n → (pages (p + j)).status = 200 ∧ (pages (p + j)).items ≠ []) →
      (pages (p + n)).status = 200 → (pages (p + n)).items = [] →
      n < fuel →
      listContributorsGo pages p acc fuel = CollectR.done (acc ++ pagesConcat pages p n) := by
  intro n
  induction n with
  | zero =>
    intro p acc fuel _ hst hempty hfuel
    cases fuel with
    | zero => omega
    | succ f =>
      simp only [Nat.add_zero] at hst hempty
      simp only [listContributorsGo]
      show (if (pages p).status ≠ 200 ∧ 400 ≤ (pages p).status ∧ (pages p).status < 600 then
          CollectR.raised (pages p).status
        else if (pages p).items.isEmpty then CollectR.done acc
        else listContributorsGo pages (p + 1) (acc ++ (pages p).items) f) =
        CollectR.done (acc ++ pagesConcat pages p 0)
      rw [if_neg (fun hcon => hcon.1 hst), if_pos (List.isEmpty_iff.mpr hempty)]
      show CollectR.done acc = CollectR.done (acc ++ [])
      rw [List.append_nil]
  | succ m ih =>
    intro p acc fuel hprev hst hempty hfuel
    cases fuel with
    | zero => omega
    | succ f =>
      have h0 := hprev 0 (Nat.succ_pos m)
      simp only [Nat.add_zero] at h0
      simp only [listContributorsGo]
      show (if (pages p).status ≠ 200 ∧ 400 ≤ (pages p).status ∧ (pages p).status < 600 then
          CollectR.raised (pages p).status
        else if (pages p).items.isEmpty then CollectR.done acc
        else listContributorsGo pages (p + 1) (acc ++ (pages p).items) f) =
        CollectR.done (acc ++ pagesConcat pages p (m + 1))
      rw [if_neg (fun hcon => hcon.1 h0.1),
        if_neg (fun hcon => h0.2 (List.isEmpty_iff.mp hcon))]
      rw [ih (p + 1) (acc ++ (pages p).items) f
        (fun j hj => by
          have hsh : p + 1 + j = p + (j + 1) := by omega
          rw [hsh]
          exact hprev (j + 1) (by omega))
        (by
          have hsh : p + 1 + m = p + (m + 1) := by omega
          rw [hsh]
          exact hst)
        (by
          have hsh : p + 1 + m = p + (m + 1) := by omega
          rw [hsh]
          exact hempty)
        (by omega)]
      rw [List.append_assoc]
      rfl

/-- Helper: a run of the `list_contributors` loop over `n` full pages ending in
a 4xx/5xx page raises via `r.raise_for_status()`, discarding the accumulated
records. -/
theorem listContribGo_raise {α : Type} (pages : Nat → Page α) :
    ∀ (n p : Nat) (acc : List α) (fuel : Nat),
      (∀ j, j < n → (pages (p + j)).status = 200 ∧ (pages (p + j)).items ≠ []) →
      (pages (p + n)).status ≠ 200 → 400 ≤ (pages (p + n)).status →
      (pages (p + n)).status < 600 →
      n < fuel →
      listContributorsGo pages p acc fuel = CollectR.raised ((pages (p + n)).status) := by
  intro n
  induction n with
  | zero =>
    intro p acc fuel _ hbad hlo hhi hfuel
    cases fuel with
    | zero => omega
    | succ f =>
      simp only [Nat.add_zero] at hbad hlo hhi ⊢
      simp only [listContributorsGo]
      show (if (pages p).status ≠ 200 ∧ 400 ≤ (pages p).status ∧ (pages p).status < 600 then
          CollectR.raised (pages p).status
        else if (pages p).items.isEmpty then CollectR.done acc
        else listContributorsGo pages (p + 1) (acc ++ (pages p).items) f) =
        CollectR.raised (pages p).status
      rw [if_pos ⟨hbad, hlo, hhi⟩]
  | succ m ih =>
    intro p acc fuel hprev hbad hlo hhi hfuel
    cases fuel with
    | zero => omega
    | succ f =>
      have h0 := hprev 0 (Nat.succ_pos m)
      simp only [Nat.add_zero] at h0
      simp only [listContributorsGo]
      show (if (pages p).status ≠ 200 ∧ 400 ≤ (pages p).status ∧ (pages p).status < 600 then
          CollectR.raised (pages p).status
        else if (pages p).items.isEmpty then CollectR.done acc
        else listContributorsGo pages (p + 1) (acc ++ (pages p).items) f) =
        CollectR.raised ((pages (p + (m + 1))).status)
      rw [if_neg (fun hcon => hcon.1 h0.1),
        if_neg (fun hcon => h0.2 (List.isEmpty_iff.mp hcon))]
      have hsh : p + 1 + m = p + (m + 1) := by omega
      rw [ih (p + 1) (acc ++ (pages p).items) f
        (fun j hj => by
          have hsh2 : p + 1 + j = p + (j + 1) := by omega
          rw [hsh2]
          exact hprev (j + 1) (by omega))
        (by rw [hsh]; exact hbad) (by rw [hsh]; exact hlo) (by rw [hsh]; exact hhi)
        (by omega)]
      rw [hsh]

/-- Helper: a run of the `search_repos_for_topic` loop over `n` full pages
ending in a page that breaks (non-200 status or empty `items`) returns the
accumulated items. -/
theorem searchGo_run {α : Type} (pages : Nat → Page α) :
    ∀ (n p : Nat) (acc : List α) (rem : Nat),
      (∀ j, j < n → (pages (p + j)).status = 200 ∧ (pages (p + j)).items ≠ []) →
      ((pages (p + n)).status ≠ 200 ∨ (pages (p + n)).items = []) →
      n < rem →
      searchReposGo pages p rem acc = acc ++ pagesConcat pages p n := by
  intro n
  induction n with
  | zero =>
    intro p acc rem _ hstop hrem
    cases rem with
    | zero => omega
    | succ r =>
      simp only [Nat.add_zero] at hstop
      simp only [searchReposGo]
      show (if (pages p).status ≠ 200 then acc
        else if (pages p).items.isEmpty then acc
        else searchReposGo pages (p + 1) r (acc ++ (pages p).items)) =
        acc ++ pagesConcat pages p 0
      rcases hstop with hbad | hempty
      · rw [if_pos hbad]
        show acc = acc ++ []
        rw [List.append_nil]
      · by_cases hbad : (pages p).status ≠ 200
        · rw [if_pos hbad]
          show acc = acc ++ []
          rw [List.append_nil]
        · rw [if_neg hbad, if_pos (List.isEmpty_iff.mpr hempty)]
          show acc = acc ++ []
          rw [List.append_nil]
  | succ m ih =>
    intro p acc rem hprev hstop hrem
    cases rem with
    | zero => omega
    | succ r =>
      have h0 := hprev 0 (Nat.succ_pos m)
      simp only [Nat.add_zero] at h0
      simp only [searchReposGo]
      show (if (pages p).status ≠ 200 then acc
        else if (pages p).items.isEmpty then acc
        else searchReposGo pages (p + 1) r (acc ++ (pages p).items)) =
        acc ++ pagesConcat pages p (m + 1)
      rw [if_neg (fun hcon => hcon h0.1),
        if_neg (fun hcon => h0.2 (List.isEmpty_iff.mp hcon))]
      rw [ih (p + 1) (acc ++ (pages p).items) r
        (fun j hj => by
          have hsh : p + 1 + j = p + (j + 1) := by omega
          rw [hsh]
          exact hprev (j + 1) (by omega))
        (by
          have hsh : p + 1 + m = p + (m + 1) := by omega
          rw [hsh]
          exact hstop)
        (by omega)]
      rw [List.append_assoc]
      rfl

/-- C4: over a sequence of page responses with 200 statuses in which pages
`1..n` are non-empty (of arbitrary, possibly short, sizes — `per_page` is
never consulted) and page `n+1` is the first page with zero items, both
paginated collectors stop exactly at that first empty page, returning the
concatenation of the bodies of pages `1..n`; the number of returned records is
the sum of those page sizes. -/
theorem c4_pagination_stops_at_first_empty_page (α : Type) (pages : Nat → Page α)
    (n fuel : Nat) (hfuel : n < fuel)
    (hprev : ∀ j, j < n → (pages (1 + j)).status = 200 ∧ (pages (1 + j)).items ≠ [])
    (hstatus : (pages (1 + n)).status = 200) (hempty : (pages (1 + n)).items = []) :
    list_contributors pages fuel = CollectR.done (pagesConcat pages 1 n) ∧
    list_pull_requests pages fuel = CollectR.done (pagesConcat pages 1 n) ∧
    pagesConcat pages 1 n = ((List.range' 1 n).map (fun p => (pages p).items)).flatten ∧
    (pagesConcat pages 1 n).length =
      ((List.range' 1 n).map (fun p => (pages p).items.length)).sum := by
  refine ⟨?_, ?_, pagesConcat_eq_flatten pages n 1, pagesConcat_length pages n 1⟩
  · have h := listContribGo_run pages n 1 [] fuel hprev hstatus hempty hfuel
    rw [List.nil_append] at h
    exact h
  · have h := listPRGo_run pages n 1 [] fuel hprev (Or.inr hempty) hfuel
    rw [List.nil_append] at h
    exact h

/-- Witness for C4: three 200 pages of sizes 3, 1 (shorter than any page size,
yet not terminating) and 2, then an empty page; six records come back. -/
theorem c4_pagination_stops_at_first_empty_page_witness :
    list_contributors
        (fun p => if p = 1 then Page.mk 200 [10, 20, 30]
          else if p = 2 then Page.mk 200 [40]
          else if p = 3 then Page.mk 200 [50, 60] else Page.mk 200 ([] : List Nat)) 10 =
      CollectR.done (pagesConcat
        (fun p => if p = 1 then Page.mk 200 [10, 20, 30]
          else if p = 2 then Page.mk 200 [40]
          else if p = 3 then Page.mk 200 [50, 60] else Page.mk 200 ([] : List Nat)) 1 3) ∧
    list_pull_requests
        (fun p => if p = 1 then Page.mk 200 [10, 20, 30]
          else if p = 2 then Page.mk 200 [40]
          else if p = 3 then Page.mk 200 [50, 60] else Page.mk 200 ([] : List Nat)) 10 =
      CollectR.done (pagesConcat
        (fun p => if p = 1 then Page.mk 200 [10, 20, 30]
          else if p = 2 then Page.mk 200 [40]
          else if p = 3 then Page.mk 200 [50, 60] else Page.mk 200 ([] : List Nat)) 1 3) ∧
    pagesConcat
        (fun p => if p = 1 then Page.mk 200 [10, 20, 30]
          else if p = 2 then Page.mk 200 [40]
          else if p = 3 then Page.mk 200 [50, 60] else Page.mk 200 ([] : List Nat)) 1 3 =
      ((List.range' 1 3).map (fun p =>
        ((fun p => if p = 1 then Page.mk 200 [10, 20, 30]
          else if p = 2 then Page.mk 200 [40]
          else if p = 3 then Page.mk 200 [50, 60] else Page.mk 200 ([] : List Nat)) p).items)).flatten ∧
    (pagesConcat
        (fun p => if p = 1 then Page.mk 200 [10, 20, 30]
          else if p = 2 then Page.mk 200 [40]
          else if p = 3 then Page.mk 200 [50, 60] else Page.mk 200 ([] : List Nat)) 1 3).length =
      ((List.range' 1 3).map (fun p =>
        ((fun p => if p = 1 then Page.mk 200 [10, 20, 30]
          else if p = 2 then Page.mk 200 [40]
          else if p = 3 then Page.mk 200 [50, 60] else Page.mk 200 ([] : List Nat)) p).items.length)).sum :=
  c4_pagination_stops_at_first_empty_page Nat
    (fun p => if p = 1 then Page.mk 200 [10, 20, 30]
      else if p = 2 then Page.mk 200 [40]
      else if p = 3 then Page.mk 200 [50, 60] else Page.mk 200 ([] : List Nat)) 3 10
    (by decide) (by decide) (by decide) (by decide)

/-- C2 (amended): when a mid-pagination request resolves to a non-success
status, `list_pull_requests` and `search_repos_for_topic` return the records
accumulated from the earlier successful pages; `list_contributors`, however,
calls `r.raise_for_status()` and therefore raises when that status is 4xx/5xx,
discarding the partial results. -/
theorem c2_collectors_on_nonsuccess_amended (α : Type) (pages : Nat → Page α)
    (n fuel maxPages : Nat) (hfuel : n < fuel) (hmax : n < maxPages)
    (hprev : ∀ j, j < n → (pages (1 + j)).status = 200 ∧ (pages (1 + j)).items ≠ [])
    (hbad : (pages (1 + n)).status ≠ 200) :
    list_pull_requests pages fuel = CollectR.done (pagesConcat pages 1 n) ∧
    searchReposPages pages maxPages = pagesConcat pages 1 n ∧
    (400 ≤ (pages (1 + n)).status → (pages (1 + n)).status < 600 →
      list_contributors pages fuel = CollectR.raised ((pages (1 + n)).status)) := by
  refine ⟨?_, ?_, ?_⟩
  · have h := listPRGo_run pages n 1 [] fuel hprev (Or.inl hbad) hfuel
    rw [List.nil_append] at h
    exact h
  · have h := searchGo_run pages n 1 [] maxPages hprev (Or.inl hbad) hmax
    rw [List.nil_append] at h
    exact h
  · intro hlo hhi
    exact listContribGo_raise pages n 1 [] fuel hprev hbad hlo hhi hfuel

/-- Witness for C2 (amended): one good page of two records, then a 404. -/
theorem c2_collectors_on_nonsuccess_amended_witness :
    list_pull_requests (fun p => if p = 1 then Page.mk 200 [10, 20] else Page.mk 404 ([] : List Nat)) 6 =
      CollectR.done (pagesConcat
        (fun p => if p = 1 then Page.mk 200 [10, 20] else Page.mk 404 ([] : List Nat)) 1 1) ∧
    searchReposPages (fun p => if p = 1 then Page.mk 200 [10, 20] else Page.mk 404 ([] : List Nat)) 5 =
      pagesConcat (fun p => if p = 1 then Page.mk 200 [10, 20] else Page.mk 404 ([] : List Nat)) 1 1 ∧
    (400 ≤ ((fun p => if p = 1 then Page.mk 200 [10, 20] else Page.mk 404 ([] : List Nat)) (1 + 1)).status →
      ((fun p => if p = 1 then Page.mk 200 [10, 20] else Page.mk 404 ([] : List Nat)) (1 + 1)).status < 600 →
      list_contributors (fun p => if p = 1 then Page.mk 200 [10, 20] else Page.mk 404 ([] : List Nat)) 6 =
        CollectR.raised (((fun p => if p = 1 then Page.mk 200 [10, 20] else Page.mk 404 ([] : List Nat)) (1 + 1)).status)) :=
  c2_collectors_on_nonsuccess_amended Nat
    (fun p => if p = 1 then Page.mk 200 [10, 20] else Page.mk 404 ([] : List Nat)) 1 6 5
    (by decide) (by decide) (by decide) (by decide)

/-- C2 counterexample: `list_contributors` over a first page with two records
followed by a 404 raises (`HTTPError` from `r.raise_for_status()`) instead of
returning the two accumulated records — and the executor did not raise here,
it returned the 404 response. -/
theorem c2_list_contributors_raises_counterexample :
    list_contributors (fun p => if p = 1 then Page.mk 200 [10, 20] else Page.mk 404 ([] : List Nat)) 6 =
      CollectR.raised 404 ∧
    CollectR.raised 404 ≠ CollectR.done [10, 20] := by
  exact ⟨rfl, by decide⟩

/-- Helper: membership in `dedupAppend`. -/
theorem mem_dedupAppend (c : String) : ∀ (cs acc : List String),
    c ∈ dedupAppend acc cs ↔ c ∈ acc ∨ c ∈ cs := by
  intro cs
  induction cs with
  | nil => intro acc; simp [dedupAppend]
  | cons x xs ih =>
    intro acc
    show c ∈ dedupAppend (if acc.contains x then acc else acc ++ [x]) xs ↔ _
    rw [ih]
    by_cases hx : acc.contains x
    · rw [if_pos hx]
      have hxmem : x ∈ acc := List.elem_iff.mp hx
      simp only [List.mem_cons]
      constructor
      · rintro (h | h)
        · exact Or.inl h
        · exact Or.inr (Or.inr h)
      · rintro (h | h | h)
        · exact Or.inl h
        · exact Or.inl (h ▸ hxmem)
        · exact Or.inr h
    · rw [if_neg hx]
      simp only [List.mem_append, List.mem_singleton, List.mem_cons]
      tauto

/-- Helper: membership in a `dedupAppend` fold (the column union). -/
theorem mem_foldl_dedupAppend (c : String) : ∀ (ls : List (List String)) (init : List String),
    c ∈ ls.foldl dedupAppend init ↔ c ∈ init ∨ ∃ cs ∈ ls, c ∈ cs := by
  intro ls
  induction ls with
  | nil => intro init; simp
  | cons x xs ih =>
    intro init
    rw [List.foldl_cons, ih, mem_dedupAppend]
    simp only [List.mem_cons]
    constructor
    · rintro ((h | h) | ⟨cs, hcs, h⟩)
      · exact Or.inl h
      · exact Or.inr ⟨x, Or.inl rfl, h⟩
      · exact Or.inr ⟨cs, Or.inr hcs, h⟩
    · rintro (h | ⟨cs, (rfl | hcs), h⟩)
      · exact Or.inl (Or.inl h)
      · exact Or.inl (Or.inr h)
      · exact Or.inr ⟨cs, hcs, h⟩

/-- Helper: membership in `unionCols`. -/
theorem mem_unionCols (c : String) (ls : List (List String)) :
    c ∈ unionCols ls ↔ ∃ cs ∈ ls, c ∈ cs := by
  unfold unionCols
  rw [mem_foldl_dedupAppend]
  simp

/-- Helper: `pd.concat` conserves the total row count. -/
theorem pdConcat_rows_length (dfs : List DF) :
    (pdConcat dfs).rows.length = (dfs.map (fun df => df.rows.length)).sum := by
  unfold pdConcat
  rw [List.length_flatMap]
  simp [Function.comp_def, List.length_map]

/-- Helper: the columns of `pd.concat` are exactly the columns of the inputs. -/
theorem mem_pdConcat_cols (dfs : List DF) (c : String) :
    c ∈ (pdConcat dfs).cols ↔ ∃ df ∈ dfs, c ∈ df.cols := by
  show c ∈ unionCols (dfs.map DF.cols) ↔ _
  rw [mem_unionCols]
  constructor
  · rintro ⟨cs, hcs, h⟩
    obtain ⟨df, hdf, rfl⟩ := List.mem_map.mp hcs
    exact ⟨df, hdf, h⟩
  · rintro ⟨df, hdf, h⟩
    exact ⟨df.cols, List.mem_map.mpr ⟨df, hdf, rfl⟩, h⟩

/-- Helper: a column assignment leaves the row count unchanged. -/
theorem dfAssign_rows_length (df : DF) (c : String) (v : PyVal) :
    (dfAssign df c v).rows.length = df.rows.length := by
  unfold dfAssign
  by_cases h : df.cols.contains c
  · rw [if_pos h]
    exact List.length_map _ _
  · rw [if_neg h]
    exact List.length_map _ _

/-- Helper: columns after a column assignment. -/
theorem mem_dfAssign_cols (df : DF) (c x : String) (v : PyVal) :
    x ∈ (dfAssign df c v).cols ↔ x ∈ df.cols ∨ x = c := by
  unfold dfAssign
  by_cases h : df.cols.contains c
  · rw [if_pos h]
    have hc : c ∈ df.cols := List.elem_iff.mp h
    constructor
    · exact fun hx => Or.inl hx
    · rintro (hx | rfl)
      · exact hx
      · exact hc
  · rw [if_neg h]
    simp [List.mem_append]

/-- Helper: the six metadata assignments leave the row count unchanged. -/
theorem augmentDF_rows_length (parentPath : String) (rmap : List (String × RInfo))
    (dirName : String) (df : DF) :
    (augmentDF parentPath rmap dirName df).rows.length = df.rows.length := by
  unfold augmentDF
  simp only [dfAssign_rows_length]

/-- Helper: the columns after the six metadata assignments are the original
columns together with the metadata columns. -/
theorem mem_augmentDF_cols (parentPath : String) (rmap : List (String × RInfo))
    (dirName : String) (df : DF) (x : String) :
    x ∈ (augmentDF parentPath rmap dirName df).cols ↔ x ∈ df.cols ∨ x ∈ metaCols := by
  unfold augmentDF metaCols
  simp only [mem_dfAssign_cols, List.mem_cons, List.not_mem_nil, or_false]
  tauto

/-- Helper: the augmented tables and the matched source tables have equal
per-table row counts. -/
theorem aggRows_map_rows_length (parentPath : String) (rmap : List (String × RInfo)) :
    ∀ ds : List SubDir,
      (aggRows parentPath rmap ds).map (fun df => df.rows.length) =
        (matchedDFs ds).map (fun df => df.rows.length) := by
  intro ds
  induction ds with
  | nil => rfl
  | cons d rest ih =>
    simp only [aggRows, matchedDFs]
    cases h : chooseCSV d with
    | none => exact ih
    | some o =>
      cases o with
      | none => exact ih
      | some df =>
        simp only [List.map_cons, augmentDF_rows_length, ih]

/-- Helper: every augmented table in `aggRows` corresponds to a matched source
table whose columns it extends by exactly the metadata columns. -/
theorem aggRows_member_spec (parentPath : String) (rmap : List (String × RInfo)) :
    ∀ (ds : List SubDir) (a : DF), a ∈ aggRows parentPath rmap ds →
      ∃ src ∈ matchedDFs ds, ∀ x, x ∈ a.cols ↔ x ∈ src.cols ∨ x ∈ metaCols := by
  intro ds
  induction ds with
  | nil => intro a ha; cases ha
  | cons d rest ih =>
    intro a ha
    simp only [aggRows, matchedDFs] at ha ⊢
    cases h : chooseCSV d with
    | none =>
      rw [h] at ha
      exact ih a ha
    | some o =>
      cases o with
      | none =>
        rw [h] at ha
        exact ih a ha
      | some df =>
        rw [h] at ha
        rcases List.mem_cons.mp ha with rfl | ha2
        · exact ⟨df, List.mem_cons_self df _,
            fun x => mem_augmentDF_cols parentPath rmap d.name df x⟩
        · obtain ⟨src, hsrc, hiff⟩ := ih a ha2
          exact ⟨src, List.mem_cons_of_mem df hsrc, hiff⟩

/-- Helper: every matched source table has its augmented counterpart in
`aggRows`. -/
theorem matchedDFs_member_spec (parentPath : String) (rmap : List (String × RInfo)) :
    ∀ (ds : List SubDir) (src : DF), src ∈ matchedDFs ds →
      ∃ a ∈ aggRows parentPath rmap ds, ∀ x, x ∈ a.cols ↔ x ∈ src.cols ∨ x ∈ metaCols := by
  intro ds
  induction ds with
  | nil => intro src hsrc; cases hsrc
  | cons d rest ih =>
    intro src hsrc
    simp only [aggRows, matchedDFs] at hsrc ⊢
    cases h : chooseCSV d with
    | none =>
      rw [h] at hsrc
      exact ih src hsrc
    | some o =>
      cases o with
      | none =>
        rw [h] at hsrc
        exact ih src hsrc
      | some df =>
        rw [h] at hsrc
        rcases List.mem_cons.mp hsrc with rfl | hsrc2
        · exact ⟨augmentDF parentPath rmap d.name src, List.mem_cons_self _ _,
            fun x => mem_augmentDF_cols parentPath rmap d.name src x⟩
        · obtain ⟨a, ha, hiff⟩ := ih src hsrc2
          exact ⟨a, List.mem_cons_of_mem _ ha, hiff⟩

/-- C8: whenever the aggregator succeeds on a parent directory, the master
table's row count equals the sum of the row counts of the matched per-repo
source tables; every original column of every matched table appears in the
master table; every master column comes from a source table or is one of the
six metadata columns; and all six metadata columns are present. -/
theorem c8_master_table_conservation (parentPath : String) (ds : List SubDir)
    (rmap : List (String × RInfo)) (out : DF)
    (h : aggregate_contributors_master parentPath (Option.some ds) rmap = Except.ok out) :
    out.rows.length = ((matchedDFs ds).map (fun df => df.rows.length)).sum ∧
    (∀ src ∈ matchedDFs ds, ∀ c ∈ src.cols, c ∈ out.cols) ∧
    (∀ c ∈ out.cols, (∃ src ∈ matchedDFs ds, c ∈ src.cols) ∨ c ∈ metaCols) ∧
    (∀ c ∈ metaCols, c ∈ out.cols) := by
  have hshow : (if (aggRows parentPath rmap ds).isEmpty = true then
      (Except.error ("No contributor/user CSVs found under " ++ parentPath) : Except String DF)
    else Except.ok (pdConcat (aggRows parentPath rmap ds))) = Except.ok out := h
  by_cases hemp : (aggRows parentPath rmap ds).isEmpty = true
  · rw [if_pos hemp] at hshow
    cases hshow
  · rw [if_neg hemp] at hshow
    have hout : out = pdConcat (aggRows parentPath rmap ds) := (Except.ok.injEq _ _).mp hshow |>.symm
    subst hout
    refine ⟨?_, ?_, ?_, ?_⟩
    · rw [pdConcat_rows_length, aggRows_map_rows_length]
    · intro src hsrc c hc
      obtain ⟨a, ha, hiff⟩ := matchedDFs_member_spec parentPath rmap ds src hsrc
      exact (mem_pdConcat_cols _ c).mpr ⟨a, ha, (hiff c).mpr (Or.inl hc)⟩
    · intro c hc
      obtain ⟨a, ha, hca⟩ := (mem_pdConcat_cols _ c).mp hc
      obtain ⟨src, hsrc, hiff⟩ := aggRows_member_spec parentPath rmap ds a ha
      rcases (hiff c).mp hca with h1 | h1
      · exact Or.inl ⟨src, hsrc, h1⟩
      · exact Or.inr h1
    · intro c hc
      obtain ⟨a, ha⟩ : ∃ a, a ∈ aggRows parentPath rmap ds := by
        cases hrows : aggRows parentPath rmap ds with
        | nil => rw [hrows] at hemp; exact absurd rfl hemp
        | cons a rest => exact ⟨a, hrows ▸ List.mem_cons_self a rest⟩
      obtain ⟨src, _, hiff⟩ := aggRows_member_spec parentPath rmap ds a ha
      exact (mem_pdConcat_cols _ c).mpr ⟨a, ha, (hiff c).mpr (Or.inr hc)⟩

/-- Witness for C8: two subdirectories — one `contributors.csv` with two rows,
one `users.csv` with one row and an extra column — aggregate into a
three-row master whose row count is the sum of the matched tables' row
counts. -/
theorem c8_master_table_conservation_witness :
    (DF.mk ["login", "repo_dir", "repo_name", "full_name", "owner", "topics", "matched_topics", "x"]
      [[PyVal.str "a", PyVal.str "/p/r1", PyVal.str "r1", PyVal.str "o/r1", PyVal.str "o",
        PyVal.str "t1,t2", PyVal.str "t1", PyVal.none],
       [PyVal.str "b", PyVal.str "/p/r1", PyVal.str "r1", PyVal.str "o/r1", PyVal.str "o",
        PyVal.str "t1,t2", PyVal.str "t1", PyVal.none],
       [PyVal.str "c", PyVal.str "/p/r2", PyVal.str "r2", PyVal.none, PyVal.none,
        PyVal.str "", PyVal.str "", PyVal.int 1]]).rows.length =
      ((matchedDFs
        [SubDir.mk "r1"
          (Option.some (Option.some (DF.mk ["login"] [[PyVal.str "a"], [PyVal.str "b"]])))
          Option.none,
         SubDir.mk "r2" Option.none
          (Option.some (Option.some (DF.mk ["login", "x"] [[PyVal.str "c", PyVal.int 1]])))]).map
        (fun df => df.rows.length)).sum :=
  (c8_master_table_conservation "/p"
    [SubDir.mk "r1"
      (Option.some (Option.some (DF.mk ["login"] [[PyVal.str "a"], [PyVal.str "b"]])))
      Option.none,
     SubDir.mk "r2" Option.none
      (Option.some (Option.some (DF.mk ["login", "x"] [[PyVal.str "c", PyVal.int 1]])))]
    [("o/r1", RInfo.mk (PyVal.str "r1") (PyVal.str "o") ["t1", "t2"] ["t1"])]
    (DF.mk ["login", "repo_dir", "repo_name", "full_name", "owner", "topics", "matched_topics", "x"]
      [[PyVal.str "a", PyVal.str "/p/r1", PyVal.str "r1", PyVal.str "o/r1", PyVal.str "o",
        PyVal.str "t1,t2", PyVal.str "t1", PyVal.none],
       [PyVal.str "b", PyVal.str "/p/r1", PyVal.str "r1", PyVal.str "o/r1", PyVal.str "o",
        PyVal.str "t1,t2", PyVal.str "t1", PyVal.none],
       [PyVal.str "c", PyVal.str "/p/r2", PyVal.str "r2", PyVal.none, PyVal.none,
        PyVal.str "", PyVal.str "", PyVal.int 1]])
    rfl).1

/-- Helper: membership in the matched-topics set after an `add`. -/
theorem mem_addMatched (e : RepoEntry) (t s : String) :
    s ∈ (addMatched e t).matched_topics ↔ s ∈ e.matched_topics ∨ s = t := by
  unfold addMatched
  by_cases h : e.matched_topics.contains t
  · rw [if_pos h]
    have ht : t ∈ e.matched_topics := List.elem_iff.mp h
    constructor
    · exact fun hs => Or.inl hs
    · rintro (hs | rfl)
      · exact hs
      · exact ht
  · rw [if_neg h]
    show s ∈ e.matched_topics ++ [t] ↔ _
    simp [List.mem_append]

/-- Helper: `add` keeps the matched-topics set duplicate-free. -/
theorem addMatched_nodup (e : RepoEntry) (t : String) (h : e.matched_topics.Nodup) :
    (addMatched e t).matched_topics.Nodup := by
  unfold addMatched
  by_cases hc : e.matched_topics.contains t
  · rw [if_pos hc]
    exact h
  · rw [if_neg hc]
    have ht : t ∉ e.matched_topics := fun hm => hc (List.elem_iff.mpr hm)
    show (e.matched_topics ++ [t]).Nodup
    simp [List.nodup_append, h, ht]

/-- Helper: `add` does not change the entry's key field. -/
theorem addMatched_full_name (e : RepoEntry) (t : String) :
    (addMatched e t).full_name = e.full_name := by
  unfold addMatched
  by_cases hc : e.matched_topics.contains t
  · rw [if_pos hc]
  · rw [if_neg hc]

/-- Helper: updating entries in place preserves the key list. -/
theorem map_update_keys (repos : List (String × RepoEntry)) (full : String)
    (f : RepoEntry → RepoEntry) :
    (repos.map (fun kv => if kv.1 == full then (kv.1, f kv.2) else kv)).map Prod.fst =
      repos.map Prod.fst := by
  induction repos with
  | nil => rfl
  | cons kv rest ih =>
    by_cases h : kv.1 == full
    · simp only [List.map_cons, if_pos h, ih]
    · simp only [List.map_cons, if_neg h, ih]

/-- Helper: when no key matches, the in-place update is the identity. -/
theorem map_update_id (repos : List (String × RepoEntry)) (full : String)
    (f : RepoEntry → RepoEntry) (h : ∀ kv ∈ repos, ¬((kv.1 == full) = true)) :
    repos.map (fun kv => if kv.1 == full then (kv.1, f kv.2) else kv) = repos := by
  induction repos with
  | nil => rfl
  | cons kv rest ih =>
    simp only [List.map_cons]
    rw [if_neg (h kv (List.mem_cons_self kv rest)),
      ih (fun x hx => h x (List.mem_cons_of_mem kv hx))]

/-- Helper: processing one search item preserves the repo-map invariant,
extending the processed-pair list by that (topic, item) pair. -/
theorem stepItem_inv (ps : List (String × SearchItem)) (repos : List (String × RepoEntry))
    (t : String) (it : SearchItem) (h : ReposInv ps repos) :
    ReposInv (ps ++ [(t, it)]) (stepItem repos t it) := by
  obtain ⟨hnd, hkeys, hent⟩ := h
  have hkey_ne : ∀ kv ∈ repos, kv.1 ≠ "" := by
    intro kv hkv
    exact ((hkeys kv.1).mp (List.mem_map.mpr ⟨kv, hkv, rfl⟩)).1
  unfold stepItem
  cases hfn : it.full_name with
  | none =>
    refine ⟨hnd, ?_, ?_⟩
    · intro full
      rw [hkeys full]
      constructor
      · rintro ⟨hne, p, hp, hfull⟩
        exact ⟨hne, p, List.mem_append_left _ hp, hfull⟩
      · rintro ⟨hne, p, hp, hfull⟩
        rcases List.mem_append.mp hp with hp | hp
        · exact ⟨hne, p, hp, hfull⟩
        · rw [List.mem_singleton] at hp
          subst hp
          rw [hfn] at hfull
          cases hfull
    · intro kv hkv
      obtain ⟨hfn1, hnd1, hiff1⟩ := hent kv hkv
      refine ⟨hfn1, hnd1, ?_⟩
      intro s
      rw [hiff1 s]
      constructor
      · rintro ⟨it2, hit2, hfull⟩
        exact ⟨it2, List.mem_append_left _ hit2, hfull⟩
      · rintro ⟨it2, hit2, hfull⟩
        rcases List.mem_append.mp hit2 with hit2 | hit2
        · exact ⟨it2, hit2, hfull⟩
        · rw [List.mem_singleton] at hit2
          have hit2e : it2 = it := congrArg Prod.snd hit2
          subst hit2e
          rw [hfn] at hfull
          cases hfull
  | some full =>
    show ReposInv (ps ++ [(t, it)])
      (if full = "" then repos
       else
         (if (List.find? (fun kv => kv.1 == full) repos).isSome = true then repos
          else repos ++ [(full, mkEntry full it)]).map
           (fun kv => if (kv.1 == full) = true then (kv.1, addMatched kv.2 t) else kv))
    by_cases hemp : full = ""
    · subst hemp
      rw [if_pos rfl]
      refine ⟨hnd, ?_, ?_⟩
      · intro full'
        rw [hkeys full']
        constructor
        · rintro ⟨hne, p, hp, hfull⟩
          exact ⟨hne, p, List.mem_append_left _ hp, hfull⟩
        · rintro ⟨hne, p, hp, hfull⟩
          rcases List.mem_append.mp hp with hp | hp
          · exact ⟨hne, p, hp, hfull⟩
          · rw [List.mem_singleton] at hp
            subst hp
            rw [hfn] at hfull
            exact absurd ((Option.some.injEq _ _).mp hfull).symm hne
      · intro kv hkv
        obtain ⟨hfn1, hnd1, hiff1⟩ := hent kv hkv
        refine ⟨hfn1, hnd1, ?_⟩
        intro s
        rw [hiff1 s]
        constructor
        · rintro ⟨it2, hit2, hfull⟩
          exact ⟨it2, List.mem_append_left _ hit2, hfull⟩
        · rintro ⟨it2, hit2, hfull⟩
          rcases List.mem_append.mp hit2 with hit2 | hit2
          · exact ⟨it2, hit2, hfull⟩
          · rw [List.mem_singleton] at hit2
            have hit2e : it2 = it := congrArg Prod.snd hit2
            subst hit2e
            rw [hfn] at hfull
            exact absurd ((Option.some.injEq _ _).mp hfull).symm (hkey_ne kv hkv)
    · rw [if_neg hemp]
      by_cases hpres : (repos.find? (fun kv => kv.1 == full)).isSome = true
      · rw [if_pos hpres]
        have hfull_mem : full ∈ repos.map Prod.fst := by
          obtain ⟨kv, hkv, hbeq⟩ := List.find?_isSome.mp hpres
          exact List.mem_map.mpr ⟨kv, hkv, eq_of_beq hbeq⟩
        refine ⟨?_, ?_, ?_⟩
        · rw [map_update_keys repos full (fun e => addMatched e t)]
          exact hnd
        · intro full'
          rw [map_update_keys repos full (fun e => addMatched e t)]
          constructor
          · intro hmem
            obtain ⟨hne, p, hp, hfull⟩ := (hkeys full').mp hmem
            exact ⟨hne, p, List.mem_append_left _ hp, hfull⟩
          · rintro ⟨hne, p, hp, hfull⟩
            rcases List.mem_append.mp hp with hp | hp
            · exact (hkeys full').mpr ⟨hne, p, hp, hfull⟩
            · rw [List.mem_singleton] at hp
              subst hp
              rw [hfn] at hfull
              have : full = full' := (Option.some.injEq _ _).mp hfull
              subst this
              exact hfull_mem
        · intro kv' hkv'
          obtain ⟨kv, hkv, hkv'eq⟩ := List.mem_map.mp hkv'
          obtain ⟨hfn1, hnd1, hiff1⟩ := hent kv hkv
          by_cases hb : (kv.1 == full) = true
          · rw [if_pos hb] at hkv'eq
            subst hkv'eq
            have hkeq : kv.1 = full := eq_of_beq hb
            refine ⟨?_, addMatched_nodup _ _ hnd1, ?_⟩
            · show (addMatched kv.2 t).full_name = kv.1
              rw [addMatched_full_name]
              exact hfn1
            · intro s
              show s ∈ (addMatched kv.2 t).matched_topics ↔ _
              rw [mem_addMatched]
              constructor
              · rintro (hs | rfl)
                · obtain ⟨it2, hit2, hf2⟩ := (hiff1 s).mp hs
                  exact ⟨it2, List.mem_append_left _ hit2, hf2⟩
                · refine ⟨it, List.mem_append_right _ (List.mem_singleton_self _), ?_⟩
                  rw [hfn, hkeq]
              · rintro ⟨it2, hit2, hf2⟩
                rcases List.mem_append.mp hit2 with hit2 | hit2
                · exact Or.inl ((hiff1 s).mpr ⟨it2, hit2, hf2⟩)
                · rw [List.mem_singleton] at hit2
                  exact Or.inr (congrArg Prod.fst hit2)
          · rw [if_neg hb] at hkv'eq
            subst hkv'eq
            refine ⟨hfn1, hnd1, ?_⟩
            intro s
            rw [hiff1 s]
            constructor
            · rintro ⟨it2, hit2, hf2⟩
              exact ⟨it2, List.mem_append_left _ hit2, hf2⟩
            · rintro ⟨it2, hit2, hf2⟩
              rcases List.mem_append.mp hit2 with hit2 | hit2
              · exact ⟨it2, hit2, hf2⟩
              · rw [List.mem_singleton] at hit2
                have hit2e : it2 = it := congrArg Prod.snd hit2
                subst hit2e
                rw [hfn] at hf2
                have : full = kv.1 := (Option.some.injEq _ _).mp hf2
                exact absurd (beq_iff_eq.mpr this.symm) hb
      · rw [if_neg hpres]
        have hnone : repos.find? (fun kv => kv.1 == full) = Option.none :=
          Option.not_isSome_iff_eq_none.mp hpres
        have habs : ∀ kv ∈ repos, ¬((kv.1 == full) = true) := List.find?_eq_none.mp hnone
        have hfullnot : full ∉ repos.map Prod.fst := by
          intro hmem
          obtain ⟨kv, hkv, hke⟩ := List.mem_map.mp hmem
          exact habs kv hkv (beq_iff_eq.mpr hke)
        have hres : (repos ++ [(full, mkEntry full it)]).map
            (fun kv => if kv.1 == full then (kv.1, addMatched kv.2 t) else kv) =
            repos ++ [(full, addMatched (mkEntry full it) t)] := by
          rw [List.map_append, map_update_id repos full (fun e => addMatched e t) habs]
          simp only [List.map_cons, List.map_nil]
          rw [if_pos (beq_iff_eq.mpr rfl)]
        rw [hres]
        have hnewkeys : (repos ++ [(full, addMatched (mkEntry full it) t)]).map Prod.fst =
            repos.map Prod.fst ++ [full] := by
          rw [List.map_append]
          rfl
        refine ⟨?_, ?_, ?_⟩
        · rw [hnewkeys]
          simp [List.nodup_append, hnd, hfullnot]
        · intro full'
          rw [hnewkeys, List.mem_append, List.mem_singleton]
          constructor
          · rintro (hmem | rfl)
            · obtain ⟨hne, p, hp, hfull⟩ := (hkeys full').mp hmem
              exact ⟨hne, p, List.mem_append_left _ hp, hfull⟩
            · exact ⟨hemp, (t, it), List.mem_append_right _ (List.mem_singleton_self _), hfn⟩
          · rintro ⟨hne, p, hp, hfull⟩
            rcases List.mem_append.mp hp with hp | hp
            · exact Or.inl ((hkeys full').mpr ⟨hne, p, hp, hfull⟩)
            · rw [List.mem_singleton] at hp
              subst hp
              rw [hfn] at hfull
              exact Or.inr ((Option.some.injEq _ _).mp hfull).symm
        · intro kv' hkv'
          rcases List.mem_append.mp hkv' with hkv | hkv
          · obtain ⟨hfn1, hnd1, hiff1⟩ := hent kv' hkv
            refine ⟨hfn1, hnd1, ?_⟩
            intro s
            rw [hiff1 s]
            constructor
            · rintro ⟨it2, hit2, hf2⟩
              exact ⟨it2, List.mem_append_left _ hit2, hf2⟩
            · rintro ⟨it2, hit2, hf2⟩
              rcases List.mem_append.mp hit2 with hit2 | hit2
              · exact ⟨it2, hit2, hf2⟩
              · rw [List.mem_singleton] at hit2
                have hit2e : it2 = it := congrArg Prod.snd hit2
                subst hit2e
                rw [hfn] at hf2
                have : full = kv'.1 := (Option.some.injEq _ _).mp hf2
                exact absurd (List.mem_map.mpr ⟨kv', hkv, this.symm⟩) hfullnot
          · rw [List.mem_singleton] at hkv
            subst hkv
            refine ⟨?_, addMatched_nodup _ _ List.nodup_nil, ?_⟩
            · show (addMatched (mkEntry full it) t).full_name = full
              rw [addMatched_full_name]
              rfl
            · intro s
              show s ∈ (addMatched (mkEntry full it) t).matched_topics ↔ _
              rw [mem_addMatched]
              constructor
              · rintro (hs | rfl)
                · cases hs
                · exact ⟨it, List.mem_append_right _ (List.mem_singleton_self _), hfn⟩
              · rintro ⟨it2, hit2, hf2⟩
                rcases List.mem_append.mp hit2 with hit2 | hit2
                · exfalso
                  apply hfullnot
                  rw [hkeys full]
                  exact ⟨hemp, (s, it2), hit2, hf2⟩
                · rw [List.mem_singleton] at hit2
                  exact Or.inr (congrArg Prod.fst hit2)

/-- Helper: processing a run of (topic, item) pairs preserves the repo-map
invariant. -/
theorem foldl_stepItem_inv :
    ∀ (ps acc : List (String × SearchItem)) (repos : List (String × RepoEntry)),
      ReposInv acc repos →
      ReposInv (acc ++ ps) (ps.foldl (fun r p => stepItem r p.1 p.2) repos) := by
  intro ps
  induction ps with
  | nil =>
    intro acc repos h
    rw [List.foldl_nil, List.append_nil]
    exact h
  | cons p rest ih =>
    intro acc repos h
    rw [List.foldl_cons, List.append_cons]
    exact ih (acc ++ [p]) (stepItem repos p.1 p.2) (stepItem_inv acc repos p.1 p.2 h)

/-- Helper: the two nested loops of `buildRepos` process the flattened
(topic, item) pair list left to right. -/
theorem buildRepos_pairs (search : String → List SearchItem) :
    ∀ (topics : List String) (init : List (String × RepoEntry)),
      topics.foldl (fun repos t2 => (search t2).foldl (fun r it => stepItem r t2 it) repos) init =
        (topics.flatMap (fun t2 => (search t2).map (fun it => (t2, it)))).foldl
          (fun r p => stepItem r p.1 p.2) init := by
  intro topics
  induction topics with
  | nil => intro init; rfl
  | cons t2 rest ih =>
    intro init
    rw [List.foldl_cons, List.flatMap_cons, List.foldl_append, ih, List.foldl_map]

/-- Helper: the repo-map invariant holds of `buildRepos` with respect to the
full pair list. -/
theorem buildRepos_inv (search : String → List SearchItem) (topics : List String) :
    ReposInv (topics.flatMap (fun t2 => (search t2).map (fun it => (t2, it))))
      (buildRepos search topics) := by
  unfold buildRepos
  rw [buildRepos_pairs]
  have h0 : ReposInv [] ([] : List (String × RepoEntry)) := by
    refine ⟨List.nodup_nil, ?_, ?_⟩
    · intro full
      simp
    · intro kv hkv
      cases hkv
  have h := foldl_stepItem_inv
    (topics.flatMap (fun t2 => (search t2).map (fun it => (t2, it)))) [] [] h0
  rw [List.nil_append] at h
  exact h

/-- Helper: membership in the flattened pair list. -/
theorem mem_pairs_iff (search : String → List SearchItem) (topics : List String)
    (s : String) (it : SearchItem) :
    (s, it) ∈ topics.flatMap (fun t2 => (search t2).map (fun x => (t2, x))) ↔
      s ∈ topics ∧ it ∈ search s := by
  rw [List.mem_flatMap]
  constructor
  · rintro ⟨t2, ht2, hmem⟩
    obtain ⟨x, hx, heq⟩ := List.mem_map.mp hmem
    have h1 : t2 = s := congrArg Prod.fst heq
    have h2 : x = it := congrArg Prod.snd heq
    subst h1
    subst h2
    exact ⟨ht2, hx⟩
  · rintro ⟨hs, hit⟩
    exact ⟨s, hs, List.mem_map.mpr ⟨it, hit, rfl⟩⟩

/-- C9: the repository map built by `find_repos_by_topics` contains each
repository exactly once, keyed by its (truthy) `full_name`, even when several
query topics return the same repository; each entry's key is its `full_name`;
and each entry's `matched_topics` is the duplicate-free, lexicographically
sorted list of exactly those query topics whose search results contained that
repository. -/
theorem c9_repo_map_unique_keys_sorted_matched (topics : List String)
    (search : String → List SearchItem) (getTopics : PyVal → PyVal → List String) :
    ((find_repos_by_topics topics search getTopics).map Prod.fst).Nodup ∧
    (∀ full : String,
      full ∈ (find_repos_by_topics topics search getTopics).map Prod.fst ↔
        full ≠ "" ∧ ∃ t ∈ topics, ∃ it ∈ search t, it.full_name = Option.some full) ∧
    (∀ kv ∈ find_repos_by_topics topics search getTopics,
      kv.2.full_name = kv.1 ∧
      kv.2.matched_topics.Nodup ∧
      List.Sorted (fun a b : String => a ≤ b) kv.2.matched_topics ∧
      (∀ s : String, s ∈ kv.2.matched_topics ↔
        s ∈ topics ∧ ∃ it ∈ search s, it.full_name = Option.some kv.1)) := by
  obtain ⟨hnd, hkeys, hent⟩ := buildRepos_inv search topics
  have hkeysmap : (find_repos_by_topics topics search getTopics).map Prod.fst =
      (buildRepos search topics).map Prod.fst := by
    unfold find_repos_by_topics
    rw [List.map_map]
    rfl
  refine ⟨?_, ?_, ?_⟩
  · rw [hkeysmap]
    exact hnd
  · intro full
    rw [hkeysmap, hkeys full]
    constructor
    · rintro ⟨hne, p, hp, hfull⟩
      have hpmem : (p.1, p.2) ∈ topics.flatMap (fun t2 => (search t2).map (fun x => (t2, x))) := hp
      obtain ⟨ht, hit⟩ := (mem_pairs_iff search topics p.1 p.2).mp hpmem
      exact ⟨hne, p.1, ht, p.2, hit, hfull⟩
    · rintro ⟨hne, t, ht, it, hit, hfull⟩
      exact ⟨hne, (t, it), (mem_pairs_iff search topics t it).mpr ⟨ht, hit⟩, hfull⟩
  · intro kv' hkv'
    unfold find_repos_by_topics at hkv'
    obtain ⟨kv, hkv, hkv'eq⟩ := List.mem_map.mp hkv'
    obtain ⟨hfn1, hnd1, hiff1⟩ := hent kv hkv
    have hfst : kv'.1 = kv.1 := by
      rw [← hkv'eq]
    have hsnd : kv'.2 = { kv.2 with
        topics := getTopics kv.2.owner kv.2.name,
        matched_topics := kv.2.matched_topics.insertionSort (fun a b => a ≤ b) } := by
      rw [← hkv'eq]
    have hperm : (kv.2.matched_topics.insertionSort (fun a b => a ≤ b)).Perm
        kv.2.matched_topics := List.perm_insertionSort _ _
    refine ⟨?_, ?_, ?_, ?_⟩
    · rw [hsnd, hfst]
      exact hfn1
    · rw [hsnd]
      exact hperm.nodup_iff.mpr hnd1
    · rw [hsnd]
      exact List.sorted_insertionSort _ _
    · intro s
      rw [hsnd, hfst]
      show s ∈ kv.2.matched_topics.insertionSort (fun a b => a ≤ b) ↔ _
      rw [hperm.mem_iff, hiff1 s]
      constructor
      · rintro ⟨it2, hit2, hf2⟩
        obtain ⟨hs, hitmem⟩ := (mem_pairs_iff search topics s it2).mp hit2
        exact ⟨hs, it2, hitmem, hf2⟩
      · rintro ⟨hs, it2, hitmem, hf2⟩
        exact ⟨it2, (mem_pairs_iff search topics s it2).mpr ⟨hs, hitmem⟩, hf2⟩

end ContribPipeline
